import Mathlib

/-!
Verification of `src/clone_or_update_all_org_github_repos.py`.

The script lists every repository of a GitHub organization by paging the
REST endpoint (`GitHubRepoSync.get_repositories`, lines 50-69), shuffles the
list, and runs one asyncio task per repository
(`GitHubRepoSync.sync_repository`, lines 71-122) under a counting semaphore
of size `max_concurrent` (line 47).  Each task pulls an existing checkout or
clones a missing one, appending one message to `self.errors` on failure;
`sync_all_repositories` (lines 124-144) gathers the tasks, prints the error
summary and a completion marker, and calls `sys.exit(1)` only from the
enclosing exception handler.

The embedding below models the per-task control flow as a labelled small-step
relation (`Step`) over explicit scheduler states, and the surrounding run
(listing, `asyncio.gather`, summary, exit) as a second relation (`RunStep`).
-/

/-- A repository record as returned by the GitHub API.  Only the two keys the
program reads are modelled; a `none` field corresponds to a record on which
the subscript `repo[...]` at line 79 or 81 raises `KeyError`. -/
structure Repo where
  name : Option String
  ssh_url : Option String
deriving DecidableEq, Repr

/-- A record on which `repo['name']` or `repo['ssh_url']` raises `KeyError`. -/
def malformed (r : Repo) : Bool := r.name.isNone || r.ssh_url.isNone

/-- The `while True` paging loop of `get_repositories` (lines 55-67).
`pages` maps a page number to the JSON array the endpoint serves for it; the
loop appends each page to the accumulator and stops at the first empty page.
`fuel` bounds the number of iterations modelled; `none` means the loop has
not terminated within `fuel` iterations. -/
def getRepositoriesLoop (pages : Nat → List Repo) :
    Nat → Nat → List Repo → Option (List Repo)
  | 0, _, _ => none
  | fuel + 1, page, repos =>
      let pageRepos := pages page
      if pageRepos = [] then some repos
      else getRepositoriesLoop pages fuel (page + 1) (repos ++ pageRepos)

/-- `GitHubRepoSync.get_repositories` (lines 50-69): run the paging loop
starting from `page = 1` with an empty accumulator. -/
def get_repositories (pages : Nat → List Repo) (fuel : Nat) : Option (List Repo) :=
  getRepositoriesLoop pages fuel 1 []

/-- Everything the endpoint serves on the `m` consecutive pages
`start, start+1, ..., start+m-1`. -/
def pagesConcat (pages : Nat → List Repo) : Nat → Nat → List Repo
  | _, 0 => []
  | start, m + 1 => pages start ++ pagesConcat pages (start + 1) m

lemma mem_pagesConcat (pages : Nat → List Repo) :
    ∀ (m start : Nat) (r : Repo),
      r ∈ pagesConcat pages start m ↔ ∃ j, j < m ∧ r ∈ pages (start + j) := by
  intro m
  induction m with
  | zero =>
      intro start r
      simp [pagesConcat]
  | succ m ih =>
      intro start r
      simp only [pagesConcat, List.mem_append, ih (start + 1)]
      constructor
      · rintro (h | ⟨j, hj, hr⟩)
        · exact ⟨0, by omega, by simpa using h⟩
        · refine ⟨j + 1, by omega, ?_⟩
          have harith : start + 1 + j = start + (j + 1) := by omega
          rwa [harith] at hr
      · rintro ⟨j, hj, hr⟩
        cases j with
        | zero =>
            left
            simpa using hr
        | succ j =>
            right
            refine ⟨j, by omega, ?_⟩
            have harith : start + (j + 1) = start + 1 + j := by omega
            rwa [harith] at hr

lemma getRepositoriesLoop_spec (pages : Nat → List Repo) :
    ∀ (m start : Nat) (acc : List Repo),
      (∀ j, j < m → pages (start + j) ≠ []) →
      pages (start + m) = [] →
      getRepositoriesLoop pages (m + 1) start acc =
        some (acc ++ pagesConcat pages start m) := by
  intro m
  induction m with
  | zero =>
      intro start acc _ hempty
      simp only [Nat.add_zero] at hempty
      simp [getRepositoriesLoop, hempty, pagesConcat]
  | succ m ih =>
      intro start acc hne hempty
      have h0 : pages start ≠ [] := by
        have := hne 0 (Nat.succ_pos m)
        simpa using this
      have hrec := ih (start + 1) (acc ++ pages start)
        (fun j hj => by
          have := hne (j + 1) (by omega)
          have harith : start + (j + 1) = start + 1 + j := by omega
          rwa [harith] at this)
        (by
          have harith : start + 1 + m = start + (m + 1) := by omega
          rwa [harith])
      have hunfold : getRepositoriesLoop pages (m + 1 + 1) start acc =
          if pages start = [] then some acc
          else getRepositoriesLoop pages (m + 1) (start + 1) (acc ++ pages start) := rfl
      rw [hunfold, if_neg h0, hrec]
      simp [pagesConcat, List.append_assoc]

/-- C2 (proved below as `get_repositories_complete`): if the endpoint serves
`m` non-empty pages followed by an empty one, the paging loop returns exactly
the concatenation of those pages; when that concatenation consists of `N`
distinct repositories, the result has exactly `N` unique entries and contains
precisely the repositories served on some page. -/
theorem get_repositories_complete (pages : Nat → List Repo) (m N : Nat)
    (hne : ∀ j, j < m → pages (1 + j) ≠ [])
    (hempty : pages (1 + m) = [])
    (hN : (pagesConcat pages 1 m).length = N)
    (hnodup : (pagesConcat pages 1 m).Nodup) :
    ∃ l, get_repositories pages (m + 1) = some l ∧
      l.length = N ∧ l.Nodup ∧
      (∀ r, r ∈ l ↔ ∃ j, j < m ∧ r ∈ pages (1 + j)) := by
  refine ⟨pagesConcat pages 1 m, ?_, hN, hnodup, ?_⟩
  · unfold get_repositories
    have := getRepositoriesLoop_spec pages m 1 [] hne hempty
    simpa using this
  · intro r
    exact mem_pagesConcat pages m 1 r

/-- A concrete paginated endpoint: 3 repositories over two pages, page 3 empty. -/
def pagesEx : Nat → List Repo
  | 1 => [⟨some "alpha", some "git@github.com:o/alpha.git"⟩,
          ⟨some "beta", some "git@github.com:o/beta.git"⟩]
  | 2 => [⟨some "gamma", some "git@github.com:o/gamma.git"⟩]
  | _ => []

/-- Witness for C2 at a concrete endpoint: 3 repositories over two pages. -/
theorem get_repositories_complete_witness :
    (∀ j, j < 2 → pagesEx (1 + j) ≠ []) ∧
    ∃ l, get_repositories pagesEx 3 = some l ∧
      l.length = 3 ∧ l.Nodup ∧
      (∀ r, r ∈ l ↔ ∃ j, j < 2 ∧ r ∈ pagesEx (1 + j)) :=
  ⟨by decide, get_repositories_complete pagesEx 2 3 (by decide) (by decide)
    (by decide) (by decide)⟩

/-- Which external command a task runs: `git pull` (localPath exists) or
`git clone` (it does not) — lines 86-91 and 106-111. -/
inductive ExtAction
  | pull
  | clone
deriving DecidableEq, Repr

/-- Outcome of an external invocation: the process exits with a return code
and captured stderr, or `create_subprocess_exec`/`communicate` raises. -/
inductive ExtResult
  | exited (returncode : Int) (stderr : String)
  | raised (msg : String)
deriving DecidableEq, Repr

/-- Control position of one `sync_repository` coroutine:
`start` — before `async with self.semaphore` (line 78) grants a token;
`acquired` — token held, before the subprocess is spawned (lines 79-83);
`ext a` — token held, external process `a` in flight (lines 86-92, 106-112);
`done` — the `async with` block exited normally, token released;
`raisedKey` — a `KeyError` from line 79/81 escaped the block, token released
by the context manager on the way out. -/
inductive TaskPC
  | start
  | acquired
  | ext (a : ExtAction)
  | done
  | raisedKey
deriving DecidableEq, Repr

/-- One task: the repository record it was created for and its position. -/
structure TaskState where
  repo : Repo
  pc : TaskPC
deriving DecidableEq, Repr

/-- Shared scheduler state: the task list created at line 133, the number of
free semaphore tokens (line 47), and `self.errors` (line 48). -/
structure SyncState where
  tasks : List TaskState
  sem : Nat
  errors : List String
deriving DecidableEq, Repr

/-- `tasks = [self.sync_repository(repo) for repo in repos]` (line 133) with
`Semaphore(max_concurrent)` untouched and `self.errors` empty. -/
def initState (repos : List Repo) (K : Nat) : SyncState :=
  ⟨repos.map (fun r => ⟨r, TaskPC.start⟩), K, []⟩

/-- What a scheduler step did, and to which task index. -/
inductive Label
  | acquire (i : Nat)
  | beginExt (i : Nat) (a : ExtAction)
  | keyErr (i : Nat)
  | finish (i : Nat) (r : ExtResult)
deriving DecidableEq, Repr

/-- The task index a label acts on. -/
def Label.actor : Label → Nat
  | .acquire i => i
  | .beginExt i _ => i
  | .keyErr i => i
  | .finish i _ => i

/-- Is the label a semaphore acquisition? -/
def Label.isAcquire : Label → Bool
  | .acquire _ => true
  | _ => false

/-- The verb in the error message: `pull` at lines 96/100, `clone` at 116/120. -/
def actionVerb : ExtAction → String
  | .pull => "pull"
  | .clone => "clone"

/-- `f"Failed to pull {repo_name}: {err}"` / `f"Failed to clone {repo_name}: {err}"`
(lines 96, 100, 116, 120). -/
def failMsg (a : ExtAction) (n err : String) : String :=
  "Failed to " ++ actionVerb a ++ " " ++ n ++ ": " ++ err

/-- Did the external invocation fail (non-zero exit or a raised exception)? -/
def ExtResult.isFailure : ExtResult → Bool
  | .exited c _ => c != 0
  | .raised _ => true

/-- The text interpolated into the error message: `stderr.decode()` for a
non-zero exit (lines 96/116), `str(e)` for an exception (lines 100/120). -/
def ExtResult.errText : ExtResult → String
  | .exited _ e => e
  | .raised m => m

/-- One cooperative step of the fan-out under `ex : name ↦ does basePath/name
exist`.  `acquire` is the semaphore grant at line 78; `beginExt` reads the
record's fields, performs the `repo_path.exists()` check (line 83) and spawns
the corresponding subprocess; `keyErr` is the `KeyError` raised at line 79/81
for a malformed record, which escapes the `async with` block (releasing the
token) without touching `self.errors`; `finish` is the completion of
`process.communicate()` followed by the per-branch success/failure handling
(lines 93-102 / 113-122), which releases the token at the end of the block. -/
inductive Step (ex : String → Bool) : SyncState → Label → SyncState → Prop
  | acquire (s : SyncState) (i : Nat) (t : TaskState)
      (hi : s.tasks[i]? = some t) (hpc : t.pc = TaskPC.start) (hsem : 0 < s.sem) :
      Step ex s (Label.acquire i)
        ⟨s.tasks.set i { t with pc := TaskPC.acquired }, s.sem - 1, s.errors⟩
  | beginExt (s : SyncState) (i : Nat) (t : TaskState) (n u : String)
      (hi : s.tasks[i]? = some t) (hpc : t.pc = TaskPC.acquired)
      (hn : t.repo.name = some n) (hu : t.repo.ssh_url = some u) :
      Step ex s (Label.beginExt i (if ex n then ExtAction.pull else ExtAction.clone))
        ⟨s.tasks.set i { t with pc := TaskPC.ext (if ex n then ExtAction.pull else ExtAction.clone) },
         s.sem, s.errors⟩
  | keyErr (s : SyncState) (i : Nat) (t : TaskState)
      (hi : s.tasks[i]? = some t) (hpc : t.pc = TaskPC.acquired)
      (hbad : malformed t.repo = true) :
      Step ex s (Label.keyErr i)
        ⟨s.tasks.set i { t with pc := TaskPC.raisedKey }, s.sem + 1, s.errors⟩
  | finishOk (s : SyncState) (i : Nat) (t : TaskState) (a : ExtAction) (stderr : String)
      (hi : s.tasks[i]? = some t) (hpc : t.pc = TaskPC.ext a) :
      Step ex s (Label.finish i (ExtResult.exited 0 stderr))
        ⟨s.tasks.set i { t with pc := TaskPC.done }, s.sem + 1, s.errors⟩
  | finishFail (s : SyncState) (i : Nat) (t : TaskState) (a : ExtAction)
      (code : Int) (stderr : String)
      (hi : s.tasks[i]? = some t) (hpc : t.pc = TaskPC.ext a) (hcode : code ≠ 0) :
      Step ex s (Label.finish i (ExtResult.exited code stderr))
        ⟨s.tasks.set i { t with pc := TaskPC.done }, s.sem + 1,
         s.errors ++ [failMsg a (t.repo.name.getD "") stderr]⟩
  | finishExc (s : SyncState) (i : Nat) (t : TaskState) (a : ExtAction) (msg : String)
      (hi : s.tasks[i]? = some t) (hpc : t.pc = TaskPC.ext a) :
      Step ex s (Label.finish i (ExtResult.raised msg))
        ⟨s.tasks.set i { t with pc := TaskPC.done }, s.sem + 1,
         s.errors ++ [failMsg a (t.repo.name.getD "") msg]⟩

/-- A finite interleaving of scheduler steps with its labels. -/
inductive Trace (ex : String → Bool) : SyncState → List Label → SyncState → Prop
  | refl (s : SyncState) : Trace ex s [] s
  | step (s s' s'' : SyncState) (l : Label) (ls : List Label)
      (h : Step ex s l s') (htr : Trace ex s' ls s'') : Trace ex s (l :: ls) s''

/-- `s'` is reachable from `s` by some interleaving. -/
def Reach (ex : String → Bool) (s s' : SyncState) : Prop :=
  ∃ ls, Trace ex s ls s'

section ListHelpers

variable {α β : Type _}

lemma get?_set_self : ∀ (l : List α) (i : Nat) (a b : α),
    l[i]? = some a → (l.set i b)[i]? = some b := by
  intro l
  induction l with
  | nil =>
      intro i a b h
      simp at h
  | cons x l ih =>
      intro i a b h
      cases i with
      | zero => simp
      | succ n =>
          simp only [List.set] at *
          simp only [List.getElem?_cons_succ] at h ⊢
          exact ih n a b h

lemma get?_set_other : ∀ (l : List α) (i j : Nat) (b : α),
    i ≠ j → (l.set i b)[j]? = l[j]? := by
  intro l i j b h
  exact List.getElem?_set_ne h

lemma get?_map (f : α → β) : ∀ (l : List α) (i : Nat),
    (l.map f)[i]? = (l[i]?).map f := by
  intro l i
  simp [List.getElem?_map]

lemma mem_of_get? {l : List α} {i : Nat} {a : α} (h : l[i]? = some a) : a ∈ l :=
  List.getElem?_mem h

lemma map_set_same (f : α → β) : ∀ (l : List α) (i : Nat) (a b : α),
    l[i]? = some a → f b = f a → (l.set i b).map f = l.map f := by
  intro l
  induction l with
  | nil =>
      intro i a b h _
      simp at h
  | cons x l ih =>
      intro i a b h hf
      cases i with
      | zero =>
          simp only [List.getElem?_cons_zero, Option.some.injEq] at h
          subst h
          simp [List.set, hf]
      | succ n =>
          simp only [List.getElem?_cons_succ] at h
          simp [List.set, ih n a b h hf]

lemma countP_set_add (p : α → Bool) : ∀ (l : List α) (i : Nat) (a b : α),
    l[i]? = some a →
    (l.set i b).countP p + (if p a then 1 else 0)
      = l.countP p + (if p b then 1 else 0) := by
  intro l
  induction l with
  | nil =>
      intro i a b h
      simp at h
  | cons x l ih =>
      intro i a b h
      cases i with
      | zero =>
          simp only [List.getElem?_cons_zero, Option.some.injEq] at h
          subst h
          simp only [List.set, List.countP_cons]
          omega
      | succ n =>
          simp only [List.getElem?_cons_succ] at h
          simp only [List.set, List.countP_cons]
          have := ih n a b h
          omega

lemma countP_le_countP (p q : α → Bool) (hpq : ∀ x, p x = true → q x = true) :
    ∀ l : List α, l.countP p ≤ l.countP q := by
  intro l
  induction l with
  | nil => simp
  | cons x l ih =>
      simp only [List.countP_cons]
      by_cases hx : p x = true
      · simp [hx, hpq x hx]
        omega
      · simp only [Bool.not_eq_true] at hx
        simp [hx]
        omega

end ListHelpers

/-- Does this control position hold a semaphore token? -/
def holdsToken : TaskPC → Bool
  | .acquired => true
  | .ext _ => true
  | _ => false

/-- Is an external process invocation in flight at this position? -/
def isActiveExt : TaskPC → Bool
  | .ext _ => true
  | _ => false

/-- Has the task reached a terminal position (normal end or escaped KeyError)? -/
def isTerminal : TaskPC → Bool
  | .done => true
  | .raisedKey => true
  | _ => false

/-- Number of tasks whose external invocation is in flight. -/
def countActive (ts : List TaskState) : Nat :=
  ts.countP (fun t => isActiveExt t.pc)

/-- Number of tasks currently holding a semaphore token. -/
def countHolding (ts : List TaskState) : Nat :=
  ts.countP (fun t => holdsToken t.pc)

lemma countHolding_set {ts : List TaskState} {i : Nat} {t : TaskState} (t' : TaskState)
    (hi : ts[i]? = some t) :
    countHolding (ts.set i t') + (if holdsToken t.pc then 1 else 0)
      = countHolding ts + (if holdsToken t'.pc then 1 else 0) :=
  countP_set_add _ ts i t t' hi

lemma step_token {ex : String → Bool} {s : SyncState} {l : Label} {s' : SyncState}
    (h : Step ex s l s') :
    s'.sem + countHolding s'.tasks = s.sem + countHolding s.tasks := by
  cases h with
  | acquire i t hi hpc hsem =>
      have hc := countHolding_set { t with pc := TaskPC.acquired } hi
      rw [hpc] at hc
      have hc' : countHolding (s.tasks.set i { t with pc := TaskPC.acquired })
          = countHolding s.tasks + 1 := by
        simpa [holdsToken] using hc
      show s.sem - 1 + countHolding (s.tasks.set i { t with pc := TaskPC.acquired })
          = s.sem + countHolding s.tasks
      omega
  | beginExt i t n u hi hpc hn hu =>
      have hc := countHolding_set
        { t with pc := TaskPC.ext (if ex n then ExtAction.pull else ExtAction.clone) } hi
      rw [hpc] at hc
      have hc' : countHolding (s.tasks.set i
            { t with pc := TaskPC.ext (if ex n then ExtAction.pull else ExtAction.clone) })
          = countHolding s.tasks := by
        by_cases hex : ex n = true
        · simpa [holdsToken, hex] using hc
        · simp only [Bool.not_eq_true] at hex
          simpa [holdsToken, hex] using hc
      show s.sem + countHolding (s.tasks.set i
            { t with pc := TaskPC.ext (if ex n then ExtAction.pull else ExtAction.clone) })
          = s.sem + countHolding s.tasks
      omega
  | keyErr i t hi hpc hbad =>
      have hc := countHolding_set { t with pc := TaskPC.raisedKey } hi
      rw [hpc] at hc
      have hc' : countHolding (s.tasks.set i { t with pc := TaskPC.raisedKey }) + 1
          = countHolding s.tasks := by
        simpa [holdsToken] using hc
      show s.sem + 1 + countHolding (s.tasks.set i { t with pc := TaskPC.raisedKey })
          = s.sem + countHolding s.tasks
      omega
  | finishOk i t a stderr hi hpc =>
      have hc := countHolding_set { t with pc := TaskPC.done } hi
      rw [hpc] at hc
      have hc' : countHolding (s.tasks.set i { t with pc := TaskPC.done }) + 1
          = countHolding s.tasks := by
        simpa [holdsToken] using hc
      show s.sem + 1 + countHolding (s.tasks.set i { t with pc := TaskPC.done })
          = s.sem + countHolding s.tasks
      omega
  | finishFail i t a code stderr hi hpc hcode =>
      have hc := countHolding_set { t with pc := TaskPC.done } hi
      rw [hpc] at hc
      have hc' : countHolding (s.tasks.set i { t with pc := TaskPC.done }) + 1
          = countHolding s.tasks := by
        simpa [holdsToken] using hc
      show s.sem + 1 + countHolding (s.tasks.set i { t with pc := TaskPC.done })
          = s.sem + countHolding s.tasks
      omega
  | finishExc i t a msg hi hpc =>
      have hc := countHolding_set { t with pc := TaskPC.done } hi
      rw [hpc] at hc
      have hc' : countHolding (s.tasks.set i { t with pc := TaskPC.done }) + 1
          = countHolding s.tasks := by
        simpa [holdsToken] using hc
      show s.sem + 1 + countHolding (s.tasks.set i { t with pc := TaskPC.done })
          = s.sem + countHolding s.tasks
      omega

lemma trace_inv {ex : String → Bool} (P : SyncState → Prop)
    (hP : ∀ s l s', Step ex s l s' → P s → P s') :
    ∀ {s : SyncState} {ls : List Label} {s' : SyncState},
      Trace ex s ls s' → P s → P s' := by
  intro s ls s' htr
  induction htr with
  | refl s => exact id
  | step s s' s'' l ls h htr ih =>
      intro hs
      exact ih (hP _ _ _ h hs)

lemma countHolding_init (repos : List Repo) (K : Nat) :
    countHolding (initState repos K).tasks = 0 := by
  simp only [initState, countHolding]
  induction repos with
  | nil => simp
  | cons r rs ih =>
      simp only [List.map_cons, List.countP_cons]
      simp [holdsToken, ih]

lemma reach_token {ex : String → Bool} {K : Nat} {repos : List Repo} {s : SyncState}
    (h : Reach ex (initState repos K) s) :
    s.sem + countHolding s.tasks = K := by
  obtain ⟨ls, htr⟩ := h
  have hbase : (initState repos K).sem + countHolding (initState repos K).tasks = K := by
    rw [countHolding_init]
    simp [initState]
  have := trace_inv
    (fun st => st.sem + countHolding st.tasks = K)
    (fun s l s' hstep hs => by
      show s'.sem + countHolding s'.tasks = K
      have h1 := step_token hstep
      have h2 : s.sem + countHolding s.tasks = K := hs
      omega) htr
  exact this hbase

/-- C1: at most `max_concurrent` external git processes are ever in flight —
in every reachable interleaving the tasks with an active external invocation
all hold semaphore tokens, the tokens held plus the tokens free always equal
the configured pool size `K`, and hence the active invocations never exceed
`K`. -/
theorem semaphore_bounds_concurrency (ex : String → Bool) (K : Nat)
    (repos : List Repo) (s : SyncState)
    (h : Reach ex (initState repos K) s) :
    countActive s.tasks ≤ K ∧
    s.sem + countHolding s.tasks = K ∧
    countActive s.tasks ≤ countHolding s.tasks := by
  have htok := reach_token h
  have hmono : countActive s.tasks ≤ countHolding s.tasks := by
    apply countP_le_countP
    intro t ht
    cases hpc : t.pc <;> simp [isActiveExt, holdsToken, hpc] at ht ⊢
  exact ⟨by omega, htok, hmono⟩

/-- A fixed existence oracle for concrete runs: no localPath exists. -/
def exF : String → Bool := fun _ => false

/-- A well-formed repository record used in concrete runs. -/
def repoA : Repo := ⟨some "alpha", some "git@github.com:o/alpha.git"⟩

/-- Witness for C1: the bound holds at a concrete reachable state. -/
theorem semaphore_bounds_concurrency_witness :
    Reach exF (initState [repoA] 10) (initState [repoA] 10) ∧
    (countActive (initState [repoA] 10).tasks ≤ 10 ∧
     (initState [repoA] 10).sem + countHolding (initState [repoA] 10).tasks = 10 ∧
     countActive (initState [repoA] 10).tasks ≤ countHolding (initState [repoA] 10).tasks) :=
  ⟨⟨[], Trace.refl _⟩,
   semaphore_bounds_concurrency exF 10 [repoA] _ ⟨[], Trace.refl _⟩⟩

/-- Has this task already spawned its external process (it can only move to
`done` through `finish`)? -/
def begunExt : TaskPC → Bool
  | .ext _ => true
  | .done => true
  | _ => false

/-- Has this task completed its external invocation? -/
def finished : TaskPC → Bool
  | .done => true
  | _ => false

/-- Is this label the spawn of task `i`'s external process? -/
def isBeginExtOf (i : Nat) : Label → Bool
  | .beginExt j _ => j == i
  | _ => false

/-- Is this label the completion of task `i`'s external process? -/
def isFinishOf (i : Nat) : Label → Bool
  | .finish j _ => j == i
  | _ => false

/-- 1 when task `i` exists and its position satisfies `flag`, else 0. -/
def flagAt (flag : TaskPC → Bool) (s : SyncState) (i : Nat) : Nat :=
  match s.tasks[i]? with
  | some t => if flag t.pc then 1 else 0
  | none => 0

lemma flagAt_le_one (flag : TaskPC → Bool) (s : SyncState) (i : Nat) :
    flagAt flag s i ≤ 1 := by
  unfold flagAt
  rcases s.tasks[i]? with _ | t
  · simp
  · by_cases hf : flag t.pc = true <;> simp [hf]

lemma flagAt_init (flag : TaskPC → Bool) (hstart : flag TaskPC.start = false)
    (repos : List Repo) (K : Nat) (i : Nat) :
    flagAt flag (initState repos K) i = 0 := by
  unfold flagAt
  have hg : (initState repos K).tasks[i]?
      = (repos[i]?).map (fun r => (⟨r, TaskPC.start⟩ : TaskState)) := by
    unfold initState
    exact get?_map _ repos i
  rw [hg]
  rcases repos[i]? with _ | r
  · rfl
  · simp [hstart]

lemma flagAt_set_other {flag : TaskPC → Bool} {s : SyncState} {j : Nat} {t' : TaskState}
    {sem : Nat} {errs : List String} (i : Nat) (hij : j ≠ i) :
    flagAt flag ⟨s.tasks.set j t', sem, errs⟩ i = flagAt flag s i := by
  unfold flagAt
  rw [show (⟨s.tasks.set j t', sem, errs⟩ : SyncState).tasks = s.tasks.set j t' from rfl,
    get?_set_other s.tasks j i t' hij]

lemma flagAt_set_self {flag : TaskPC → Bool} {s : SyncState} {j : Nat}
    {t t' : TaskState} {sem : Nat} {errs : List String}
    (hi : s.tasks[j]? = some t) :
    flagAt flag ⟨s.tasks.set j t', sem, errs⟩ j = (if flag t'.pc then 1 else 0) := by
  unfold flagAt
  rw [show (⟨s.tasks.set j t', sem, errs⟩ : SyncState).tasks = s.tasks.set j t' from rfl,
    get?_set_self s.tasks j t t' hi]

lemma step_begun {ex : String → Bool} {s : SyncState} {l : Label} {s' : SyncState}
    (h : Step ex s l s') (i : Nat) :
    flagAt begunExt s' i = flagAt begunExt s i + (if isBeginExtOf i l then 1 else 0) := by
  cases h with
  | acquire j t hi hpc hsem =>
      by_cases hij : j = i
      · subst hij
        rw [flagAt_set_self hi]
        simp [flagAt, hi, hpc, begunExt, isBeginExtOf]
      · rw [flagAt_set_other i hij]
        simp [isBeginExtOf]
  | beginExt j t n u hi hpc hn hu =>
      by_cases hij : j = i
      · subst hij
        rw [flagAt_set_self hi]
        simp [flagAt, hi, hpc, begunExt, isBeginExtOf]
      · rw [flagAt_set_other i hij]
        simp [isBeginExtOf, hij]
  | keyErr j t hi hpc hbad =>
      by_cases hij : j = i
      · subst hij
        rw [flagAt_set_self hi]
        simp [flagAt, hi, hpc, begunExt, isBeginExtOf]
      · rw [flagAt_set_other i hij]
        simp [isBeginExtOf]
  | finishOk j t a stderr hi hpc =>
      by_cases hij : j = i
      · subst hij
        rw [flagAt_set_self hi]
        simp [flagAt, hi, hpc, begunExt, isBeginExtOf]
      · rw [flagAt_set_other i hij]
        simp [isBeginExtOf]
  | finishFail j t a code stderr hi hpc hcode =>
      by_cases hij : j = i
      · subst hij
        rw [flagAt_set_self hi]
        simp [flagAt, hi, hpc, begunExt, isBeginExtOf]
      · rw [flagAt_set_other i hij]
        simp [isBeginExtOf]
  | finishExc j t a msg hi hpc =>
      by_cases hij : j = i
      · subst hij
        rw [flagAt_set_self hi]
        simp [flagAt, hi, hpc, begunExt, isBeginExtOf]
      · rw [flagAt_set_other i hij]
        simp [isBeginExtOf]

lemma step_finished {ex : String → Bool} {s : SyncState} {l : Label} {s' : SyncState}
    (h : Step ex s l s') (i : Nat) :
    flagAt finished s' i = flagAt finished s i + (if isFinishOf i l then 1 else 0) := by
  cases h with
  | acquire j t hi hpc hsem =>
      by_cases hij : j = i
      · subst hij
        rw [flagAt_set_self hi]
        simp [flagAt, hi, hpc, finished, isFinishOf]
      · rw [flagAt_set_other i hij]
        simp [isFinishOf]
  | beginExt j t n u hi hpc hn hu =>
      by_cases hij : j = i
      · subst hij
        rw [flagAt_set_self hi]
        simp [flagAt, hi, hpc, finished, isFinishOf]
      · rw [flagAt_set_other i hij]
        simp [isFinishOf]
  | keyErr j t hi hpc hbad =>
      by_cases hij : j = i
      · subst hij
        rw [flagAt_set_self hi]
        simp [flagAt, hi, hpc, finished, isFinishOf]
      · rw [flagAt_set_other i hij]
        simp [isFinishOf]
  | finishOk j t a stderr hi hpc =>
      by_cases hij : j = i
      · subst hij
        rw [flagAt_set_self hi]
        simp [flagAt, hi, hpc, finished, isFinishOf]
      · rw [flagAt_set_other i hij]
        simp [isFinishOf, hij]
  | finishFail j t a code stderr hi hpc hcode =>
      by_cases hij : j = i
      · subst hij
        rw [flagAt_set_self hi]
        simp [flagAt, hi, hpc, finished, isFinishOf]
      · rw [flagAt_set_other i hij]
        simp [isFinishOf, hij]
  | finishExc j t a msg hi hpc =>
      by_cases hij : j = i
      · subst hij
        rw [flagAt_set_self hi]
        simp [flagAt, hi, hpc, finished, isFinishOf]
      · rw [flagAt_set_other i hij]
        simp [isFinishOf, hij]

lemma trace_begun {ex : String → Bool} :
    ∀ {s : SyncState} {ls : List Label} {s' : SyncState}, Trace ex s ls s' → ∀ i,
      flagAt begunExt s' i = flagAt begunExt s i + ls.countP (isBeginExtOf i) := by
  intro s ls s' htr
  induction htr with
  | refl s =>
      intro i
      simp
  | step s s' s'' l ls h htr ih =>
      intro i
      have h1 := step_begun h i
      have h2 := ih i
      rw [List.countP_cons]
      omega

lemma trace_finished {ex : String → Bool} :
    ∀ {s : SyncState} {ls : List Label} {s' : SyncState}, Trace ex s ls s' → ∀ i,
      flagAt finished s' i = flagAt finished s i + ls.countP (isFinishOf i) := by
  intro s ls s' htr
  induction htr with
  | refl s =>
      intro i
      simp
  | step s s' s'' l ls h htr ih =>
      intro i
      have h1 := step_finished h i
      have h2 := ih i
      rw [List.countP_cons]
      omega

lemma step_repoMap {ex : String → Bool} {s : SyncState} {l : Label} {s' : SyncState}
    (h : Step ex s l s') :
    s'.tasks.map (fun t => t.repo) = s.tasks.map (fun t => t.repo) := by
  cases h with
  | acquire j t hi hpc hsem => exact map_set_same _ s.tasks j t _ hi rfl
  | beginExt j t n u hi hpc hn hu => exact map_set_same _ s.tasks j t _ hi rfl
  | keyErr j t hi hpc hbad => exact map_set_same _ s.tasks j t _ hi rfl
  | finishOk j t a stderr hi hpc => exact map_set_same _ s.tasks j t _ hi rfl
  | finishFail j t a code stderr hi hpc hcode => exact map_set_same _ s.tasks j t _ hi rfl
  | finishExc j t a msg hi hpc => exact map_set_same _ s.tasks j t _ hi rfl

lemma trace_repoMap {ex : String → Bool} {s : SyncState} {ls : List Label} {s' : SyncState}
    (htr : Trace ex s ls s') :
    s'.tasks.map (fun t => t.repo) = s.tasks.map (fun t => t.repo) := by
  induction htr with
  | refl s => rfl
  | step s s' s'' l ls h htr ih => rw [ih, step_repoMap h]

lemma initState_repoMap (repos : List Repo) (K : Nat) :
    (initState repos K).tasks.map (fun t => t.repo) = repos := by
  unfold initState
  induction repos with
  | nil => rfl
  | cons r rs ih => simpa using ih

lemma trace_mem_label {ex : String → Bool} :
    ∀ {s : SyncState} {ls : List Label} {s' : SyncState}, Trace ex s ls s' →
      ∀ {l : Label}, l ∈ ls → ∃ s₁ s₂, Reach ex s s₁ ∧ Step ex s₁ l s₂ := by
  intro s ls s' htr
  induction htr with
  | refl s =>
      intro l hl
      simp at hl
  | step s s' s'' l0 ls h htr ih =>
      intro l hl
      rcases List.mem_cons.mp hl with rfl | hl
      · exact ⟨s, s', ⟨[], Trace.refl s⟩, h⟩
      · obtain ⟨s₁, s₂, ⟨ls₁, htr₁⟩, hstep⟩ := ih hl
        exact ⟨s₁, s₂, ⟨l0 :: ls₁, Trace.step _ _ _ _ _ h htr₁⟩, hstep⟩

/-- C4: in any interleaving, each task spawns at most one external process,
and whenever it does, the action is `git pull` exactly when
`basePath/name` existed at the `repo_path.exists()` check and `git clone`
otherwise — so exactly one of the two branches runs per work item and the
other is never invoked. -/
theorem check_branch_exclusive (ex : String → Bool) (K : Nat) (repos : List Repo)
    (ls : List Label) (s : SyncState)
    (htr : Trace ex (initState repos K) ls s) :
    (∀ i, ls.countP (isBeginExtOf i) ≤ 1) ∧
    (∀ i a, Label.beginExt i a ∈ ls →
      ∃ r n, repos[i]? = some r ∧ r.name = some n ∧
        a = (if ex n then ExtAction.pull else ExtAction.clone)) := by
  constructor
  · intro i
    have h := trace_begun htr i
    rw [flagAt_init begunExt rfl repos K i] at h
    have := flagAt_le_one begunExt s i
    omega
  · intro i a hmem
    obtain ⟨s₁, s₂, ⟨ls₁, htr₁⟩, hstep⟩ := trace_mem_label htr hmem
    cases hstep with
    | beginExt j t n u hi hpc hn hu =>
        refine ⟨t.repo, n, ?_, hn, rfl⟩
        have hmap : s₁.tasks.map (fun t => t.repo) = repos := by
          rw [trace_repoMap htr₁, initState_repoMap]
        have : (s₁.tasks.map (fun t => t.repo))[i]? = some t.repo := by
          rw [get?_map, hi]
          rfl
        rw [hmap] at this
        exact this

/-- Witness for C4: a concrete two-step interleaving that acquires the token
and spawns a clone for a repository whose localPath does not exist. -/
theorem check_branch_exclusive_witness :
    Trace exF (initState [repoA] 10)
      [Label.acquire 0, Label.beginExt 0 ExtAction.clone]
      ⟨[⟨repoA, TaskPC.ext ExtAction.clone⟩], 9, []⟩ ∧
    ((∀ i, ([Label.acquire 0, Label.beginExt 0 ExtAction.clone].countP (isBeginExtOf i)) ≤ 1) ∧
     (∀ i a, Label.beginExt i a ∈ [Label.acquire 0, Label.beginExt 0 ExtAction.clone] →
       ∃ r n, ([repoA])[i]? = some r ∧ r.name = some n ∧
         a = (if exF n then ExtAction.pull else ExtAction.clone))) := by
  have tr : Trace exF (initState [repoA] 10)
      [Label.acquire 0, Label.beginExt 0 ExtAction.clone]
      ⟨[⟨repoA, TaskPC.ext ExtAction.clone⟩], 9, []⟩ :=
    Trace.step _ _ _ _ _
      (Step.acquire (initState [repoA] 10) 0 ⟨repoA, TaskPC.start⟩ rfl rfl (by decide))
      (Trace.step _ _ _ _ _
        (Step.beginExt ⟨[⟨repoA, TaskPC.acquired⟩], 9, []⟩ 0 ⟨repoA, TaskPC.acquired⟩
          "alpha" "git@github.com:o/alpha.git" rfl rfl rfl rfl)
        (Trace.refl _))
  exact ⟨tr, check_branch_exclusive exF 10 [repoA] _ _ tr⟩

/-- C5: a task whose external invocation exits non-zero or raises appends
exactly one entry to `self.errors` — a message naming the repository and
carrying the captured error text — the task itself ends in the normal `done`
position (the failure is swallowed inside `sync_repository`), every other
task's state is untouched, and the semaphore token is released. -/
theorem sync_failure_logged (ex : String → Bool) (s s' : SyncState) (i : Nat)
    (r : ExtResult) (h : Step ex s (Label.finish i r) s')
    (hfail : r.isFailure = true) :
    ∃ t a, s.tasks[i]? = some t ∧ t.pc = TaskPC.ext a ∧
      s'.errors = s.errors ++ [failMsg a (t.repo.name.getD "") r.errText] ∧
      (∃ p q, failMsg a (t.repo.name.getD "") r.errText
        = p ++ (t.repo.name.getD "") ++ q) ∧
      (∃ p, failMsg a (t.repo.name.getD "") r.errText = p ++ r.errText) ∧
      s'.tasks[i]? = some { t with pc := TaskPC.done } ∧
      (∀ j, j ≠ i → s'.tasks[j]? = s.tasks[j]?) ∧
      s'.sem = s.sem + 1 := by
  obtain ⟨l, hstep, hl⟩ : ∃ l, Step ex s l s' ∧ l = Label.finish i r := ⟨_, h, rfl⟩
  clear h
  cases hstep with
  | acquire i' t hi hpc hsem => exact Label.noConfusion hl
  | beginExt i' t n u hi hpc hn hu => exact Label.noConfusion hl
  | keyErr i' t hi hpc hbad => exact Label.noConfusion hl
  | finishOk i' t a stderr hi hpc =>
      obtain ⟨hi', hr⟩ : i' = i ∧ ExtResult.exited 0 stderr = r := by
        injection hl with h1 h2
        exact ⟨h1, h2⟩
      subst hi'
      subst hr
      simp [ExtResult.isFailure] at hfail
  | finishFail i' t a code stderr hi hpc hcode =>
      obtain ⟨hi', hr⟩ : i' = i ∧ ExtResult.exited code stderr = r := by
        injection hl with h1 h2
        exact ⟨h1, h2⟩
      subst hi'
      subst hr
      refine ⟨t, a, hi, hpc, rfl, ?_, ?_, ?_, ?_, rfl⟩
      · refine ⟨"Failed to " ++ actionVerb a ++ " ", ": " ++ stderr, ?_⟩
        show failMsg a (t.repo.name.getD "") stderr = _
        unfold failMsg
        rw [String.append_assoc]
      · exact ⟨"Failed to " ++ actionVerb a ++ " " ++ (t.repo.name.getD "") ++ ": ", rfl⟩
      · exact get?_set_self s.tasks i' t _ hi
      · intro j' hj'
        exact get?_set_other s.tasks i' j' _ (fun he => hj' he.symm)
  | finishExc i' t a msg hi hpc =>
      obtain ⟨hi', hr⟩ : i' = i ∧ ExtResult.raised msg = r := by
        injection hl with h1 h2
        exact ⟨h1, h2⟩
      subst hi'
      subst hr
      refine ⟨t, a, hi, hpc, rfl, ?_, ?_, ?_, ?_, rfl⟩
      · refine ⟨"Failed to " ++ actionVerb a ++ " ", ": " ++ msg, ?_⟩
        show failMsg a (t.repo.name.getD "") msg = _
        unfold failMsg
        rw [String.append_assoc]
      · exact ⟨"Failed to " ++ actionVerb a ++ " " ++ (t.repo.name.getD "") ++ ": ", rfl⟩
      · exact get?_set_self s.tasks i' t _ hi
      · intro j' hj'
        exact get?_set_other s.tasks i' j' _ (fun he => hj' he.symm)

/-- Witness for C5: a concrete `git pull` that exits with status 1. -/
theorem sync_failure_logged_witness :
    (ExtResult.exited 1 "merge conflict").isFailure = true ∧
    ∃ t a, (⟨[⟨repoA, TaskPC.ext ExtAction.pull⟩], 9, []⟩ : SyncState).tasks[0]?
        = some t ∧ t.pc = TaskPC.ext a ∧
      (⟨[⟨repoA, TaskPC.done⟩], 10,
        [failMsg ExtAction.pull "alpha" "merge conflict"]⟩ : SyncState).errors
        = (⟨[⟨repoA, TaskPC.ext ExtAction.pull⟩], 9, []⟩ : SyncState).errors
          ++ [failMsg a (t.repo.name.getD "") (ExtResult.exited 1 "merge conflict").errText] ∧
      (∃ p q, failMsg a (t.repo.name.getD "") (ExtResult.exited 1 "merge conflict").errText
        = p ++ (t.repo.name.getD "") ++ q) ∧
      (∃ p, failMsg a (t.repo.name.getD "") (ExtResult.exited 1 "merge conflict").errText
        = p ++ (ExtResult.exited 1 "merge conflict").errText) ∧
      (⟨[⟨repoA, TaskPC.done⟩], 10,
        [failMsg ExtAction.pull "alpha" "merge conflict"]⟩ : SyncState).tasks[0]?
        = some { t with pc := TaskPC.done } ∧
      (∀ j, j ≠ 0 →
        (⟨[⟨repoA, TaskPC.done⟩], 10,
          [failMsg ExtAction.pull "alpha" "merge conflict"]⟩ : SyncState).tasks[j]?
        = (⟨[⟨repoA, TaskPC.ext ExtAction.pull⟩], 9, []⟩ : SyncState).tasks[j]?) ∧
      (⟨[⟨repoA, TaskPC.done⟩], 10,
        [failMsg ExtAction.pull "alpha" "merge conflict"]⟩ : SyncState).sem
        = (⟨[⟨repoA, TaskPC.ext ExtAction.pull⟩], 9, []⟩ : SyncState).sem + 1 :=
  ⟨rfl,
   sync_failure_logged exF
     ⟨[⟨repoA, TaskPC.ext ExtAction.pull⟩], 9, []⟩
     ⟨[⟨repoA, TaskPC.done⟩], 10, [failMsg ExtAction.pull "alpha" "merge conflict"]⟩
     0 (ExtResult.exited 1 "merge conflict")
     (Step.finishFail ⟨[⟨repoA, TaskPC.ext ExtAction.pull⟩], 9, []⟩ 0
       ⟨repoA, TaskPC.ext ExtAction.pull⟩ ExtAction.pull 1 "merge conflict"
       rfl rfl (by decide))
     rfl⟩

/-- The log lines of the summary stage (lines 136-141): the error-summary
header and every entry of `self.errors` in append order when the list is
non-empty, then the completion marker in every case. -/
def summaryOutput (errors : List String) : List String :=
  (if errors.isEmpty then [] else "\nSummary of all errors:" :: errors) ++
    ["Repository synchronization completed"]

/-- `logger.error(f"Failed to fetch repositories: {e}")` (line 143). -/
def fetchFailLine (m : String) : String := "Failed to fetch repositories: " ++ m

/-- `str(e)` for the `KeyError` a malformed record raises: Python renders the
missing key in quotes, and line 79 reads `name` before line 81 reads
`ssh_url`. -/
def keyErrText (r : Repo) : String :=
  if r.name.isNone then "'name'" else "'ssh_url'"

/-- Where the whole run is: inside `get_repositories` (line 127), awaiting
`asyncio.gather` over scheduler state `s` (line 134), exited normally after
the summary, or exited via `sys.exit(1)` (line 144). -/
inductive RunPhase
  | listing
  | running (s : SyncState)
  | exitedOk
  | exitedFail
deriving DecidableEq, Repr

/-- Run phase plus the modelled log lines the run has emitted. -/
structure RunState where
  phase : RunPhase
  output : List String
deriving DecidableEq, Repr

/-- One step of `sync_all_repositories` (lines 124-144) under existence
oracle `ex`, concurrency limit `K`, and listing outcome `listing`:
`listFail` — `get_repositories` raises, the `except` block logs and calls
`sys.exit(1)` before any task is created;
`listOk` — the listing returns, `random.shuffle` reorders it (any
permutation), and one task per record is created;
`task` — one scheduler step of the fan-out;
`gatherOk` — every task finished normally, `gather` returns and the summary
plus completion marker are logged;
`gatherRaise` — some task's `KeyError` escaped, `gather` re-raises it, and
the same `except` block logs it as a fetch failure and exits non-zero. -/
inductive RunStep (ex : String → Bool) (K : Nat) (listing : Except String (List Repo)) :
    RunState → RunState → Prop
  | listFail (out : List String) (m : String) (h : listing = Except.error m) :
      RunStep ex K listing ⟨RunPhase.listing, out⟩
        ⟨RunPhase.exitedFail, out ++ [fetchFailLine m]⟩
  | listOk (out : List String) (repos repos' : List Repo)
      (h : listing = Except.ok repos) (hperm : repos'.Perm repos) :
      RunStep ex K listing ⟨RunPhase.listing, out⟩
        ⟨RunPhase.running (initState repos' K), out⟩
  | task (out : List String) (s s' : SyncState) (l : Label) (h : Step ex s l s') :
      RunStep ex K listing ⟨RunPhase.running s, out⟩ ⟨RunPhase.running s', out⟩
  | gatherOk (out : List String) (s : SyncState)
      (hall : ∀ t ∈ s.tasks, t.pc = TaskPC.done) :
      RunStep ex K listing ⟨RunPhase.running s, out⟩
        ⟨RunPhase.exitedOk, out ++ summaryOutput s.errors⟩
  | gatherRaise (out : List String) (s : SyncState) (i : Nat) (t : TaskState)
      (hi : s.tasks[i]? = some t) (hpc : t.pc = TaskPC.raisedKey) :
      RunStep ex K listing ⟨RunPhase.running s, out⟩
        ⟨RunPhase.exitedFail, out ++ [fetchFailLine (keyErrText t.repo)]⟩

/-- The run states reachable from the start of `sync_all_repositories`. -/
def RunReach (ex : String → Bool) (K : Nat) (listing : Except String (List Repo))
    (st : RunState) : Prop :=
  Relation.ReflTransGen (RunStep ex K listing) ⟨RunPhase.listing, []⟩ st

/-- What holds of each run phase: while tasks run, the listing succeeded, the
tasks are exactly the listed records (up to the shuffle), and any task whose
`KeyError` escaped was created for a malformed record; a normal exit needs a
successful listing; a `sys.exit(1)` needs a failed listing or a malformed
listed record. -/
def RunInv (listing : Except String (List Repo)) : RunPhase → Prop
  | RunPhase.listing => True
  | RunPhase.running s =>
      ∃ repos, listing = Except.ok repos ∧
        (s.tasks.map (fun t => t.repo)).Perm repos ∧
        (∀ t ∈ s.tasks, t.pc = TaskPC.raisedKey → malformed t.repo = true)
  | RunPhase.exitedOk => ∃ repos, listing = Except.ok repos
  | RunPhase.exitedFail =>
      (∃ m, listing = Except.error m) ∨
      (∃ repos r, listing = Except.ok repos ∧ r ∈ repos ∧ malformed r = true)

lemma step_raisedKey_malformed {ex : String → Bool} {s : SyncState} {l : Label}
    {s' : SyncState} (h : Step ex s l s')
    (hinv : ∀ t ∈ s.tasks, t.pc = TaskPC.raisedKey → malformed t.repo = true) :
    ∀ t ∈ s'.tasks, t.pc = TaskPC.raisedKey → malformed t.repo = true := by
  cases h with
  | acquire i t0 hi hpc hsem =>
      intro t ht hraised
      rcases List.mem_or_eq_of_mem_set ht with ht | rfl
      · exact hinv t ht hraised
      · simp at hraised
  | beginExt i t0 n u hi hpc hn hu =>
      intro t ht hraised
      rcases List.mem_or_eq_of_mem_set ht with ht | rfl
      · exact hinv t ht hraised
      · simp at hraised
  | keyErr i t0 hi hpc hbad =>
      intro t ht hraised
      rcases List.mem_or_eq_of_mem_set ht with ht | rfl
      · exact hinv t ht hraised
      · simpa using hbad
  | finishOk i t0 a stderr hi hpc =>
      intro t ht hraised
      rcases List.mem_or_eq_of_mem_set ht with ht | rfl
      · exact hinv t ht hraised
      · simp at hraised
  | finishFail i t0 a code stderr hi hpc hcode =>
      intro t ht hraised
      rcases List.mem_or_eq_of_mem_set ht with ht | rfl
      · exact hinv t ht hraised
      · simp at hraised
  | finishExc i t0 a msg hi hpc =>
      intro t ht hraised
      rcases List.mem_or_eq_of_mem_set ht with ht | rfl
      · exact hinv t ht hraised
      · simp at hraised

lemma runStep_inv {ex : String → Bool} {K : Nat} {listing : Except String (List Repo)}
    {st st' : RunState} (h : RunStep ex K listing st st')
    (hinv : RunInv listing st.phase) : RunInv listing st'.phase := by
  cases h with
  | listFail out m hm =>
      exact Or.inl ⟨m, hm⟩
  | listOk out repos repos' hm hperm =>
      refine ⟨repos, hm, ?_, ?_⟩
      · rw [initState_repoMap]
        exact hperm
      · intro t ht hraised
        simp only [initState, List.mem_map] at ht
        obtain ⟨r, hr, rfl⟩ := ht
        simp at hraised
  | task out s s' l hstep =>
      obtain ⟨repos, hm, hperm, hkey⟩ := hinv
      refine ⟨repos, hm, ?_, step_raisedKey_malformed hstep hkey⟩
      rw [step_repoMap hstep]
      exact hperm
  | gatherOk out s hall =>
      obtain ⟨repos, hm, _, _⟩ := hinv
      exact ⟨repos, hm⟩
  | gatherRaise out s i t hi hpc =>
      obtain ⟨repos, hm, hperm, hkey⟩ := hinv
      refine Or.inr ⟨repos, t.repo, hm, ?_, hkey t (mem_of_get? hi) hpc⟩
      have hmem : t.repo ∈ s.tasks.map (fun t => t.repo) :=
        List.mem_map.mpr ⟨t, mem_of_get? hi, rfl⟩
      exact hperm.mem_iff.mp hmem

lemma runReach_inv {ex : String → Bool} {K : Nat} {listing : Except String (List Repo)}
    {st : RunState} (h : RunReach ex K listing st) : RunInv listing st.phase := by
  unfold RunReach at h
  induction h with
  | refl => trivial
  | tail hreach hstep ih => exact runStep_inv hstep ih

lemma runReach_listing_error {ex : String → Bool} {K : Nat}
    {listing : Except String (List Repo)} {st : RunState} (m : String)
    (hm : listing = Except.error m) (h : RunReach ex K listing st) :
    st.phase = RunPhase.listing ∨ st.phase = RunPhase.exitedFail := by
  unfold RunReach at h
  induction h with
  | refl => exact Or.inl rfl
  | tail hreach hstep ih =>
      cases hstep with
      | listFail out m' hm' => exact Or.inr rfl
      | listOk out repos repos' hok hperm =>
          rw [hm] at hok
          exact Except.noConfusion hok
      | task out s s' l hstep' =>
          rcases ih with h1 | h1 <;> exact RunPhase.noConfusion h1
      | gatherOk out s hall =>
          rcases ih with h1 | h1 <;> exact RunPhase.noConfusion h1
      | gatherRaise out s i t hi hpc =>
          rcases ih with h1 | h1 <;> exact RunPhase.noConfusion h1

/-- A record that lacks both keys the program reads. -/
def repoBad : Repo := ⟨none, none⟩

/-- C3 counterexample: a run whose listing succeeds — it returns one record,
which merely lacks the `name` key — still ends in `sys.exit(1)`, so
"exit status is non-zero if and only if the initial listing stage fails" is
false as stated: the right-to-left direction holds but the left-to-right
direction does not. -/
theorem exit_status_claim_false :
    RunReach exF 10 (Except.ok [repoBad])
      ⟨RunPhase.exitedFail, [fetchFailLine "'name'"]⟩ ∧
    (Except.ok [repoBad] : Except String (List Repo)).isOk = true := by
  constructor
  · unfold RunReach
    refine Relation.ReflTransGen.head
      (RunStep.listOk [] [repoBad] [repoBad] rfl (List.Perm.refl _)) ?_
    refine Relation.ReflTransGen.head
      (RunStep.task [] _ _ _
        (Step.acquire (initState [repoBad] 10) 0 ⟨repoBad, TaskPC.start⟩
          rfl rfl (by decide))) ?_
    refine Relation.ReflTransGen.head
      (RunStep.task [] _ _ _
        (Step.keyErr ⟨[⟨repoBad, TaskPC.acquired⟩], 9, []⟩ 0
          ⟨repoBad, TaskPC.acquired⟩ rfl rfl rfl)) ?_
    refine Relation.ReflTransGen.head
      (RunStep.gatherRaise [] ⟨[⟨repoBad, TaskPC.raisedKey⟩], 10, []⟩ 0
        ⟨repoBad, TaskPC.raisedKey⟩ rfl rfl) ?_
    exact Relation.ReflTransGen.refl
  · rfl

/-- C3 amended: the exit status is non-zero exactly when the outer exception
handler fires — either the initial listing fails, or some listed record lacks
`name`/`ssh_url` and its `KeyError` escapes through `asyncio.gather`.  When
the listing fails the run never leaves the listing phase except to exit, so
no task is created and no external invocation occurs; when the listing
succeeds and every record is well-formed, the run can only exit normally,
regardless of how many per-item syncs fail. -/
theorem exit_status_amended (ex : String → Bool) (K : Nat)
    (listing : Except String (List Repo)) (st : RunState)
    (h : RunReach ex K listing st) :
    (∀ m, listing = Except.error m →
      st.phase = RunPhase.listing ∨ st.phase = RunPhase.exitedFail) ∧
    (st.phase = RunPhase.exitedFail →
      (∃ m, listing = Except.error m) ∨
      (∃ repos r, listing = Except.ok repos ∧ r ∈ repos ∧ malformed r = true)) ∧
    (st.phase = RunPhase.exitedOk → ∃ repos, listing = Except.ok repos) ∧
    (∀ repos, listing = Except.ok repos → (∀ r ∈ repos, malformed r = false) →
      st.phase ≠ RunPhase.exitedFail) := by
  have hinv := runReach_inv h
  refine ⟨fun m hm => runReach_listing_error m hm h, ?_, ?_, ?_⟩
  · intro hfail
    rw [hfail] at hinv
    exact hinv
  · intro hok
    rw [hok] at hinv
    exact hinv
  · intro repos hok hwf hfail
    rw [hfail] at hinv
    rcases hinv with ⟨m, hm⟩ | ⟨repos', r, hok', hr, hmal⟩
    · rw [hok] at hm
      exact Except.noConfusion hm
    · rw [hok] at hok'
      have hre : repos = repos' := by
        injection hok'
      subst hre
      have hwfr := hwf r hr
      rw [hwfr] at hmal
      exact Bool.noConfusion hmal

/-- Witness for the amended C3: a full run over one well-formed repository
whose clone fails; the failure is logged yet the run exits normally. -/
theorem exit_status_amended_witness :
    RunReach exF 10 (Except.ok [repoA])
      ⟨RunPhase.exitedOk, summaryOutput [failMsg ExtAction.clone "alpha" "boom"]⟩ ∧
    ∃ repos, (Except.ok [repoA] : Except String (List Repo)) = Except.ok repos := by
  have hrun : RunReach exF 10 (Except.ok [repoA])
      ⟨RunPhase.exitedOk, summaryOutput [failMsg ExtAction.clone "alpha" "boom"]⟩ := by
    unfold RunReach
    refine Relation.ReflTransGen.head
      (RunStep.listOk [] [repoA] [repoA] rfl (List.Perm.refl _)) ?_
    refine Relation.ReflTransGen.head
      (RunStep.task [] _ _ _
        (Step.acquire (initState [repoA] 10) 0 ⟨repoA, TaskPC.start⟩
          rfl rfl (by decide))) ?_
    refine Relation.ReflTransGen.head
      (RunStep.task [] _ _ _
        (Step.beginExt ⟨[⟨repoA, TaskPC.acquired⟩], 9, []⟩ 0
          ⟨repoA, TaskPC.acquired⟩ "alpha" "git@github.com:o/alpha.git"
          rfl rfl rfl rfl)) ?_
    refine Relation.ReflTransGen.head
      (RunStep.task [] _ _ _
        (Step.finishFail ⟨[⟨repoA, TaskPC.ext ExtAction.clone⟩], 9, []⟩ 0
          ⟨repoA, TaskPC.ext ExtAction.clone⟩ ExtAction.clone 1 "boom"
          rfl rfl (by decide))) ?_
    refine Relation.ReflTransGen.head
      (RunStep.gatherOk [] ⟨[⟨repoA, TaskPC.done⟩], 10,
        [failMsg ExtAction.clone "alpha" "boom"]⟩ (by decide)) ?_
    exact Relation.ReflTransGen.refl
  exact ⟨hrun, (exit_status_amended exF 10 _ _ hrun).2.2.1 rfl⟩

/-- C6: one task is created per listed work item; a task completes its
external invocation at most once in any interleaving (no retry); a step never
touches a task already in a terminal position, nor any task other than its
actor (no cross-task cancellation); and the run reaches the summary stage
only when every task has finished. -/
theorem executor_contract (ex : String → Bool) (K : Nat) (repos : List Repo) :
    ((initState repos K).tasks.length = repos.length) ∧
    (∀ ls s, Trace ex (initState repos K) ls s →
      ∀ i, ls.countP (isFinishOf i) ≤ 1) ∧
    (∀ (s : SyncState) (l : Label) (s' : SyncState) (i : Nat) (t : TaskState),
      Step ex s l s' → s.tasks[i]? = some t →
      isTerminal t.pc = true → s'.tasks[i]? = some t) ∧
    (∀ (s : SyncState) (l : Label) (s' : SyncState) (j : Nat),
      Step ex s l s' → j ≠ l.actor → s'.tasks[j]? = s.tasks[j]?) ∧
    (∀ (listing : Except String (List Repo)) (out : List String) (s : SyncState)
      (st : RunState), RunStep ex K listing ⟨RunPhase.running s, out⟩ st →
      st.phase = RunPhase.exitedOk → ∀ t ∈ s.tasks, t.pc = TaskPC.done) := by
  refine ⟨by simp [initState], ?_, ?_, ?_, ?_⟩
  · intro ls s htr i
    have h := trace_finished htr i
    rw [flagAt_init finished rfl repos K i] at h
    have := flagAt_le_one finished s i
    omega
  · intro s l s' i t hstep hi hterm
    cases hstep with
    | acquire i' t0 hi0 hpc hsem =>
        by_cases hij : i' = i
        · subst hij
          rw [hi0] at hi
          injection hi with hi
          rw [← hi] at hterm
          rw [hpc] at hterm
          simp [isTerminal] at hterm
        · rw [get?_set_other s.tasks i' i _ hij]
          exact hi
    | beginExt i' t0 n u hi0 hpc hn hu =>
        by_cases hij : i' = i
        · subst hij
          rw [hi0] at hi
          injection hi with hi
          rw [← hi] at hterm
          rw [hpc] at hterm
          simp [isTerminal] at hterm
        · rw [get?_set_other s.tasks i' i _ hij]
          exact hi
    | keyErr i' t0 hi0 hpc hbad =>
        by_cases hij : i' = i
        · subst hij
          rw [hi0] at hi
          injection hi with hi
          rw [← hi] at hterm
          rw [hpc] at hterm
          simp [isTerminal] at hterm
        · rw [get?_set_other s.tasks i' i _ hij]
          exact hi
    | finishOk i' t0 a stderr hi0 hpc =>
        by_cases hij : i' = i
        · subst hij
          rw [hi0] at hi
          injection hi with hi
          rw [← hi] at hterm
          rw [hpc] at hterm
          simp [isTerminal] at hterm
        · rw [get?_set_other s.tasks i' i _ hij]
          exact hi
    | finishFail i' t0 a code stderr hi0 hpc hcode =>
        by_cases hij : i' = i
        · subst hij
          rw [hi0] at hi
          injection hi with hi
          rw [← hi] at hterm
          rw [hpc] at hterm
          simp [isTerminal] at hterm
        · rw [get?_set_other s.tasks i' i _ hij]
          exact hi
    | finishExc i' t0 a msg hi0 hpc =>
        by_cases hij : i' = i
        · subst hij
          rw [hi0] at hi
          injection hi with hi
          rw [← hi] at hterm
          rw [hpc] at hterm
          simp [isTerminal] at hterm
        · rw [get?_set_other s.tasks i' i _ hij]
          exact hi
  · intro s l s' j hstep hj
    cases hstep with
    | acquire i' t0 hi0 hpc hsem =>
        exact get?_set_other s.tasks i' j _ (fun he => hj (he.symm ▸ rfl))
    | beginExt i' t0 n u hi0 hpc hn hu =>
        exact get?_set_other s.tasks i' j _ (fun he => hj (he.symm ▸ rfl))
    | keyErr i' t0 hi0 hpc hbad =>
        exact get?_set_other s.tasks i' j _ (fun he => hj (he.symm ▸ rfl))
    | finishOk i' t0 a stderr hi0 hpc =>
        exact get?_set_other s.tasks i' j _ (fun he => hj (he.symm ▸ rfl))
    | finishFail i' t0 a code stderr hi0 hpc hcode =>
        exact get?_set_other s.tasks i' j _ (fun he => hj (he.symm ▸ rfl))
    | finishExc i' t0 a msg hi0 hpc =>
        exact get?_set_other s.tasks i' j _ (fun he => hj (he.symm ▸ rfl))
  · intro listing out s st hrs hok
    cases hrs with
    | task s' l hstep' => exact RunPhase.noConfusion hok
    | gatherOk => rename_i hall; exact hall
    | gatherRaise i t hi hpc => exact RunPhase.noConfusion hok

/-- Witness for C6 at a concrete batch: one task per work item. -/
theorem executor_contract_witness :
    (initState [repoA] 10).tasks.length = ([repoA] : List Repo).length :=
  (executor_contract exF 10 [repoA]).1

/-- C7: when the run leaves the gather stage normally, every task has
finished; the summary then emits exactly the collected error messages in
append order — as a contiguous block when `self.errors` is non-empty — and
in every case (failures or none) the final emitted line is the
"Repository synchronization completed" marker. -/
theorem summary_contract (ex : String → Bool) (K : Nat)
    (listing : Except String (List Repo)) (out : List String) (s : SyncState)
    (st : RunState) (h : RunStep ex K listing ⟨RunPhase.running s, out⟩ st)
    (hok : st.phase = RunPhase.exitedOk) :
    (∀ t ∈ s.tasks, t.pc = TaskPC.done) ∧
    st.output = out ++ summaryOutput s.errors ∧
    (∃ p q, st.output = p ++ s.errors ++ q) ∧
    st.output.getLast? = some "Repository synchronization completed" := by
  cases h with
  | task s' l hstep' => exact RunPhase.noConfusion hok
  | gatherRaise i t hi hpc => exact RunPhase.noConfusion hok
  | gatherOk =>
      rename_i hall
      refine ⟨hall, rfl, ?_, ?_⟩
      · rcases hE : s.errors with _ | ⟨e, es⟩
        · refine ⟨out, summaryOutput [], ?_⟩
          show out ++ summaryOutput [] = out ++ [] ++ summaryOutput []
          simp
        · refine ⟨out ++ ["\nSummary of all errors:"],
            ["Repository synchronization completed"], ?_⟩
          show out ++ summaryOutput (e :: es)
            = out ++ ["\nSummary of all errors:"] ++ (e :: es)
              ++ ["Repository synchronization completed"]
          simp [summaryOutput]
      · show (out ++ summaryOutput s.errors).getLast? = _
        unfold summaryOutput
        rw [← List.append_assoc]
        exact List.getLast?_concat _

/-- Witness for C7: an empty batch reaches the summary, which emits only the
completion marker. -/
theorem summary_contract_witness :
    (∀ t ∈ (⟨[], 7, []⟩ : SyncState).tasks, t.pc = TaskPC.done) ∧
    (⟨RunPhase.exitedOk, summaryOutput []⟩ : RunState).output
      = [] ++ summaryOutput (⟨[], 7, []⟩ : SyncState).errors ∧
    (∃ p q, (⟨RunPhase.exitedOk, summaryOutput []⟩ : RunState).output
      = p ++ (⟨[], 7, []⟩ : SyncState).errors ++ q) ∧
    (⟨RunPhase.exitedOk, summaryOutput []⟩ : RunState).output.getLast?
      = some "Repository synchronization completed" :=
  summary_contract exF 10 (Except.ok []) [] ⟨[], 7, []⟩
    ⟨RunPhase.exitedOk, summaryOutput []⟩
    (RunStep.gatherOk [] ⟨[], 7, []⟩ (by intro t ht; simp at ht)) rfl

/-- C8: semaphore-token accounting — free tokens plus held tokens always
equal the pool size `K`; once every task is terminal all `K` tokens are free
again (no exit path leaks a token, success, non-zero exit, and `KeyError`
alike); every non-acquire step (the existence check, the subprocess spawn,
the `KeyError`, the completion handling) is performed by a task already
holding a token; and every step that lands its task in a terminal position
releases exactly one token. -/
theorem token_discipline (ex : String → Bool) (K : Nat) (repos : List Repo) :
    (∀ s, Reach ex (initState repos K) s → s.sem + countHolding s.tasks = K) ∧
    (∀ s, Reach ex (initState repos K) s →
      (∀ t ∈ s.tasks, isTerminal t.pc = true) → s.sem = K) ∧
    (∀ (s : SyncState) (l : Label) (s' : SyncState), Step ex s l s' →
      l.isAcquire = false →
      ∃ t, s.tasks[l.actor]? = some t ∧ holdsToken t.pc = true) ∧
    (∀ (s : SyncState) (l : Label) (s' : SyncState) (t' : TaskState),
      Step ex s l s' → s'.tasks[l.actor]? = some t' →
      isTerminal t'.pc = true → s'.sem = s.sem + 1) := by
  refine ⟨fun s hs => reach_token hs, ?_, ?_, ?_⟩
  · intro s hs hterm
    have htok := reach_token hs
    have hzero : countHolding s.tasks = 0 := by
      unfold countHolding
      rw [List.countP_eq_zero]
      intro t ht
      have := hterm t ht
      cases hpc : t.pc <;> simp [isTerminal, holdsToken, hpc] at this ⊢
    omega
  · intro s l s' hstep hnacq
    cases hstep with
    | acquire i t hi hpc hsem => simp [Label.isAcquire] at hnacq
    | beginExt i t n u hi hpc hn hu =>
        exact ⟨t, hi, by rw [hpc]; rfl⟩
    | keyErr i t hi hpc hbad =>
        exact ⟨t, hi, by rw [hpc]; rfl⟩
    | finishOk i t a stderr hi hpc =>
        exact ⟨t, hi, by rw [hpc]; rfl⟩
    | finishFail i t a code stderr hi hpc hcode =>
        exact ⟨t, hi, by rw [hpc]; rfl⟩
    | finishExc i t a msg hi hpc =>
        exact ⟨t, hi, by rw [hpc]; rfl⟩
  · intro s l s' t' hstep hi' hterm
    cases hstep with
    | acquire i t hi hpc hsem =>
        rw [show (Label.acquire i).actor = i from rfl] at hi'
        rw [get?_set_self s.tasks i t _ hi] at hi'
        injection hi' with hi'
        rw [← hi'] at hterm
        simp [isTerminal] at hterm
    | beginExt i t n u hi hpc hn hu =>
        rw [show (Label.beginExt i (if ex n then ExtAction.pull else ExtAction.clone)).actor
          = i from rfl] at hi'
        rw [get?_set_self s.tasks i t _ hi] at hi'
        injection hi' with hi'
        rw [← hi'] at hterm
        simp [isTerminal] at hterm
    | keyErr i t hi hpc hbad => rfl
    | finishOk i t a stderr hi hpc => rfl
    | finishFail i t a code stderr hi hpc hcode => rfl
    | finishExc i t a msg hi hpc => rfl

/-- Witness for C8: on an empty batch every task is (vacuously) terminal and
all 5 tokens are free. -/
theorem token_discipline_witness :
    Reach exF (initState [] 5) (initState [] 5) ∧ (initState [] 5).sem = 5 :=
  ⟨⟨[], Trace.refl _⟩,
   (token_discipline exF 5 []).2.1 _ ⟨[], Trace.refl _⟩
     (by intro t ht; simp [initState] at ht)⟩

/-- C9: a record lacking `name` or `ssh_url` raises after its task holds the
semaphore token and outside the per-branch try blocks — the step requires the
`acquired` position, appends nothing to `self.errors`, and releases the token
on the way out; once such a task exists, `asyncio.gather` re-raises into the
outer handler, which logs the exception as "Failed to fetch repositories" and
exits non-zero, and the run can no longer reach the normal summary exit. -/
theorem malformed_record_aborts (ex : String → Bool) :
    (∀ (s s' : SyncState) (i : Nat), Step ex s (Label.keyErr i) s' →
      ∃ t, s.tasks[i]? = some t ∧ t.pc = TaskPC.acquired ∧
        malformed t.repo = true ∧
        s'.errors = s.errors ∧ s'.sem = s.sem + 1 ∧
        s'.tasks[i]? = some { t with pc := TaskPC.raisedKey }) ∧
    (∀ (K : Nat) (listing : Except String (List Repo)) (out : List String)
      (s : SyncState) (i : Nat) (t : TaskState),
      s.tasks[i]? = some t → t.pc = TaskPC.raisedKey →
      RunStep ex K listing ⟨RunPhase.running s, out⟩
        ⟨RunPhase.exitedFail, out ++ [fetchFailLine (keyErrText t.repo)]⟩) ∧
    (∀ (K : Nat) (listing : Except String (List Repo)) (out : List String)
      (s : SyncState) (st : RunState) (i : Nat) (t : TaskState),
      s.tasks[i]? = some t → t.pc = TaskPC.raisedKey →
      RunStep ex K listing ⟨RunPhase.running s, out⟩ st →
      st.phase ≠ RunPhase.exitedOk) := by
  refine ⟨?_, ?_, ?_⟩
  · intro s s' i h
    obtain ⟨l, hstep, hl⟩ : ∃ l, Step ex s l s' ∧ l = Label.keyErr i := ⟨_, h, rfl⟩
    clear h
    cases hstep with
    | acquire i' t hi hpc hsem => exact Label.noConfusion hl
    | beginExt i' t n u hi hpc hn hu => exact Label.noConfusion hl
    | finishOk i' t a stderr hi hpc => exact Label.noConfusion hl
    | finishFail i' t a code stderr hi hpc hcode => exact Label.noConfusion hl
    | finishExc i' t a msg hi hpc => exact Label.noConfusion hl
    | keyErr i' t hi hpc hbad =>
        have hi'' : i' = i := by
          injection hl
        subst hi''
        exact ⟨t, hi, hpc, hbad, rfl, rfl, get?_set_self s.tasks i' t _ hi⟩
  · intro K listing out s i t hi hpc
    exact RunStep.gatherRaise out s i t hi hpc
  · intro K listing out s st i t hi hpc hrs
    cases hrs with
    | task s' l hstep' =>
        intro hc
        exact RunPhase.noConfusion hc
    | gatherOk =>
        rename_i hall
        intro hc
        have hdone := hall t (mem_of_get? hi)
        rw [hpc] at hdone
        exact TaskPC.noConfusion hdone
    | gatherRaise i' t' hi' hpc' =>
        intro hc
        exact RunPhase.noConfusion hc

/-- Witness for C9: the `KeyError` step on a record with no keys, and the
resulting fatal `gather` transition. -/
theorem malformed_record_aborts_witness :
    (∃ t, (⟨[⟨repoBad, TaskPC.acquired⟩], 9, []⟩ : SyncState).tasks[0]? = some t ∧
      t.pc = TaskPC.acquired ∧ malformed t.repo = true ∧
      (⟨[⟨repoBad, TaskPC.raisedKey⟩], 10, []⟩ : SyncState).errors
        = (⟨[⟨repoBad, TaskPC.acquired⟩], 9, []⟩ : SyncState).errors ∧
      (⟨[⟨repoBad, TaskPC.raisedKey⟩], 10, []⟩ : SyncState).sem
        = (⟨[⟨repoBad, TaskPC.acquired⟩], 9, []⟩ : SyncState).sem + 1 ∧
      (⟨[⟨repoBad, TaskPC.raisedKey⟩], 10, []⟩ : SyncState).tasks[0]?
        = some { t with pc := TaskPC.raisedKey }) ∧
    RunStep exF 3 (Except.ok [repoBad])
      ⟨RunPhase.running ⟨[⟨repoBad, TaskPC.raisedKey⟩], 3, []⟩, []⟩
      ⟨RunPhase.exitedFail, [] ++ [fetchFailLine (keyErrText repoBad)]⟩ :=
  ⟨(malformed_record_aborts exF).1 ⟨[⟨repoBad, TaskPC.acquired⟩], 9, []⟩
      ⟨[⟨repoBad, TaskPC.raisedKey⟩], 10, []⟩ 0
      (Step.keyErr ⟨[⟨repoBad, TaskPC.acquired⟩], 9, []⟩ 0
        ⟨repoBad, TaskPC.acquired⟩ rfl rfl rfl),
   (malformed_record_aborts exF).2.1 3 (Except.ok [repoBad]) []
      ⟨[⟨repoBad, TaskPC.raisedKey⟩], 3, []⟩ 0 ⟨repoBad, TaskPC.raisedKey⟩ rfl rfl⟩

lemma initState_pc_start {repos : List Repo} {K i : Nat} {t : TaskState}
    (hi : (initState repos K).tasks[i]? = some t) : t.pc = TaskPC.start := by
  have hg : (initState repos K).tasks[i]?
      = (repos[i]?).map (fun r => (⟨r, TaskPC.start⟩ : TaskState)) :=
    get?_map _ repos i
  rw [hg] at hi
  rcases hri : repos[i]? with _ | r
  · rw [hri] at hi
    simp at hi
  · rw [hri] at hi
    simp only [Option.map_some'] at hi
    injection hi with hi
    rw [← hi]

lemma noStep_K0 {ex : String → Bool} {repos : List Repo} {l : Label}
    {s' : SyncState} : ¬ Step ex (initState repos 0) l s' := by
  intro h
  cases h with
  | acquire i t hi hpc hsem => simp [initState] at hsem
  | beginExt i t n u hi hpc hn hu =>
      have hstart := initState_pc_start hi
      rw [hstart] at hpc
      exact TaskPC.noConfusion hpc
  | keyErr i t hi hpc hbad =>
      have hstart := initState_pc_start hi
      rw [hstart] at hpc
      exact TaskPC.noConfusion hpc
  | finishOk i t a stderr hi hpc =>
      have hstart := initState_pc_start hi
      rw [hstart] at hpc
      exact TaskPC.noConfusion hpc
  | finishFail i t a code stderr hi hpc hcode =>
      have hstart := initState_pc_start hi
      rw [hstart] at hpc
      exact TaskPC.noConfusion hpc
  | finishExc i t a msg hi hpc =>
      have hstart := initState_pc_start hi
      rw [hstart] at hpc
      exact TaskPC.noConfusion hpc

lemma trace_K0_frozen {ex : String → Bool} {repos : List Repo}
    {ls : List Label} {s : SyncState}
    (htr : Trace ex (initState repos 0) ls s) : s = initState repos 0 := by
  cases htr with
  | refl => rfl
  | step =>
      rename_i h1 htr1
      exact absurd h1 noStep_K0

/-- `asyncio.Semaphore(value)` as constructed at line 47 from the value of
`--concurrent` (line 151), which `async_main` passes through without any
validation: the Python runtime raises
`ValueError("Semaphore initial value must be >= 0")` for a negative value
and otherwise starts the pool with `value` free tokens. -/
def mkSemaphore (value : Int) : Except String Nat :=
  if value < 0 then Except.error "Semaphore initial value must be >= 0"
  else Except.ok value.toNat

/-- C10: the concurrency flag is only well-behaved for positive values — a
negative `--concurrent` makes the `Semaphore` constructor raise, and with
`--concurrent 0` and a non-empty batch no scheduler step is ever enabled:
every task is stuck before the existence check, no reachable state differs
from the initial one, and the gather stage can never complete or fail, so
the run blocks forever before any task does work. -/
theorem concurrency_limit_unvalidated (ex : String → Bool)
    (listing : Except String (List Repo)) (out : List String)
    (repos : List Repo) (hne : repos ≠ []) :
    (∀ v : Int, v < 0 →
      mkSemaphore v = Except.error "Semaphore initial value must be >= 0") ∧
    mkSemaphore 0 = Except.ok 0 ∧
    (∀ (l : Label) (s' : SyncState), ¬ Step ex (initState repos 0) l s') ∧
    (∀ s, Reach ex (initState repos 0) s → s = initState repos 0) ∧
    (∀ st', ¬ RunStep ex 0 listing ⟨RunPhase.running (initState repos 0), out⟩ st') := by
  refine ⟨?_, ?_, ?_, ?_, ?_⟩
  · intro v hv
    simp [mkSemaphore, hv]
  · norm_num [mkSemaphore]
  · intro l s'
    exact noStep_K0
  · intro s hs
    obtain ⟨ls, htr⟩ := hs
    exact trace_K0_frozen htr
  · intro st' h
    cases h with
    | task =>
        rename_i hstep'
        exact noStep_K0 hstep'
    | gatherOk =>
        rename_i hall
        rcases hrep : repos with _ | ⟨r, rs⟩
        · exact hne hrep
        · have hm : (⟨r, TaskPC.start⟩ : TaskState) ∈ (initState repos 0).tasks := by
            rw [hrep]
            simp [initState]
          have := hall _ hm
          exact TaskPC.noConfusion this
    | gatherRaise =>
        rename_i i t h1 h2
        have hstart := initState_pc_start h2
        rw [hstart] at h1
        exact TaskPC.noConfusion h1

/-- Witness for C10: `--concurrent -1` makes the constructor raise. -/
theorem concurrency_limit_unvalidated_witness :
    ([repoA] : List Repo) ≠ [] ∧
    mkSemaphore (-1) = Except.error "Semaphore initial value must be >= 0" :=
  ⟨by simp,
   (concurrency_limit_unvalidated exF (Except.ok []) [] [repoA] (by simp)).1
     (-1) (by norm_num)⟩
